import Mathlib

/-!
Verification development for the response-resolver core of a GraphQL
execution engine (package `resolve`).

The Go source is shallowly embedded as follows:
* byte slices become `Bytes := List Char`;
* raw JSON payloads become an inductive `Json` value; `jsonparser.Get`
  becomes a path walk `getPath`, and the byte span that `jsonparser.Get`
  returns for a value becomes `extractBytes` (strings are returned
  unquoted, compound values serialized);
* `BufPair` becomes a pair of byte lists, and the in-place buffer
  mutation of the Go code becomes explicit state passing: every resolve
  function takes the current `BufPair` and returns the error (Go's
  `error` return, `none` for nil) together with the new buffer state;
* `DataSource` becomes a record holding a pure load function, returning
  the JSON value written to `Data`, the bytes written to `Errors`, and
  the returned error;
* goroutine fan-out in `resolveArrayAsynchronous` and the parallel
  fetch path is modelled by resolving every element into its own fresh
  buffer and folding in source order, exactly as the Go code does after
  its join; the single-flight protocol of `resolveSingleFetch` gets a
  dedicated interleaving model further down.
-/

namespace Resolve

/-- Byte strings of the Go code, modelled as lists of characters. -/
abbrev Bytes := List Char

/-- Shorthand turning a string literal into model bytes. -/
def str (s : String) : Bytes := s.toList

/-- JSON values, standing for the raw JSON byte payloads the resolver
walks with `jsonparser`.  `num` keeps the raw literal bytes, `strVal`
keeps the unquoted content bytes. -/
inductive Json where
  | null : Json
  | boolVal (b : Bool) : Json
  | num (raw : Bytes) : Json
  | strVal (s : Bytes) : Json
  | arr (elems : List Json) : Json
  | obj (fields : List (String × Json)) : Json

/-- First binding of a key in a JSON object, as `jsonparser` finds it. -/
def lookupField : List (String × Json) → String → Option Json
  | [], _ => none
  | (k, v) :: rest, key => if k = key then some v else lookupField rest key

/-- `jsonparser.Get(data, path...)`: walk object keys; `none` is the
error case (missing key, wrong shape, or nil data). -/
def getPath : Option Json → List String → Option Json
  | none, _ => none
  | some v, [] => some v
  | some (.obj fields), k :: rest =>
      match lookupField fields k with
      | some v => getPath (some v) rest
      | none => none
  | some _, _ :: _ => none

mutual

/-- Canonical serialization of a JSON value: the byte span occupied by
the value inside the raw payload. -/
def ser : Json → Bytes
  | .null => str "null"
  | .boolVal true => str "true"
  | .boolVal false => str "false"
  | .num raw => raw
  | .strVal s => str "\"" ++ s ++ str "\""
  | .arr elems => str "[" ++ serArr elems ++ str "]"
  | .obj fields => str "\x7b" ++ serObj fields ++ str "\x7d"

/-- Comma-joined serialization of array elements. -/
def serArr : List Json → Bytes
  | [] => []
  | [v] => ser v
  | v :: rest => ser v ++ str "," ++ serArr rest

/-- Comma-joined serialization of object members. -/
def serObj : List (String × Json) → Bytes
  | [] => []
  | [(k, v)] => str "\"" ++ str k ++ str "\":" ++ ser v
  | (k, v) :: rest => str "\"" ++ str k ++ str "\":" ++ ser v ++ str "," ++ serObj rest

end

/-- The value bytes `jsonparser.Get` hands back: strings are unquoted,
everything else is the raw span. -/
def extractBytes : Json → Bytes
  | .strVal s => s
  | v => ser v

/-- `BufPair`: the paired `Data` / `Errors` byte buffers. -/
structure BufPair where
  data : Bytes
  errors : Bytes
deriving DecidableEq

/-- A fresh pooled `BufPair` (the pool resets buffers on put). -/
def BufPair.empty : BufPair := ⟨[], []⟩

/-- Resolver error values.  `nonNullable` is `errNonNullableFieldValueIsNull`,
`typeNameSkipped` is `errTypeNameSkipped`, `load` is any error returned
by `DataSource.Load` (never `errors.Is`-equal to the two sentinels). -/
inductive RErr where
  | nonNullable : RErr
  | typeNameSkipped : RErr
  | load (msg : Bytes) : RErr
deriving DecidableEq

/-- `Resolver.MergeBufPairData(from, to, prefixDataWithComma)`:
returns `(dataWritten, from, to)`; the source buffer is drained. -/
def mergeBufPairData (src dst : BufPair) (withComma : Bool) : Nat × BufPair × BufPair :=
  if src.data = [] then (0, src, dst)
  else
    let pre : Bytes := if withComma then str "," else []
    (pre.length + src.data.length,
     { src with data := [] },
     { dst with data := dst.data ++ pre ++ src.data })

/-- `Resolver.MergeBufPairErrors(from, to)`: comma-joined iff the
destination already has errors; the source buffer is drained. -/
def mergeBufPairErrors (src dst : BufPair) : Nat × BufPair × BufPair :=
  if src.errors = [] then (0, src, dst)
  else
    let pre : Bytes := if dst.errors = [] then [] else str ","
    (pre.length + src.errors.length,
     { src with errors := [] },
     { dst with errors := dst.errors ++ pre ++ src.errors })

/-- `Resolver.MergeBufPairs`: data then errors; returns
`(dataWritten, errorsWritten, from, to)`. -/
def mergeBufPairs (src dst : BufPair) (withComma : Bool) : Nat × Nat × BufPair × BufPair :=
  let (dw, src1, dst1) := mergeBufPairData src dst withComma
  let (ew, src2, dst2) := mergeBufPairErrors src1 dst1
  (dw, ew, src2, dst2)

/-- `Resolver.resolveString`.  The `data == nil && !nullable` test of the
source is kept even though it is unreachable after a successful
extraction. -/
def resolveString (path : List String) (nullable : Bool) (data : Option Json)
    (buf : BufPair) : Option RErr × BufPair :=
  match getPath data path with
  | some (.strVal s) =>
      if data.isNone && !nullable then (some .nonNullable, buf)
      else (none, { buf with data := buf.data ++ str "\"" ++ s ++ str "\"" })
  | _ =>
      if !nullable then (some .nonNullable, buf)
      else (none, { buf with data := buf.data ++ str "null" })

/-- `Resolver.resolveInteger`: requires kind `Number`. -/
def resolveInteger (path : List String) (nullable : Bool) (data : Option Json)
    (buf : BufPair) : Option RErr × BufPair :=
  match getPath data path with
  | some (.num raw) => (none, { buf with data := buf.data ++ raw })
  | _ =>
      if !nullable then (some .nonNullable, buf)
      else (none, { buf with data := buf.data ++ str "null" })

/-- `Resolver.resolveFloat`: requires kind `Number`. -/
def resolveFloat (path : List String) (nullable : Bool) (data : Option Json)
    (buf : BufPair) : Option RErr × BufPair :=
  match getPath data path with
  | some (.num raw) => (none, { buf with data := buf.data ++ raw })
  | _ =>
      if !nullable then (some .nonNullable, buf)
      else (none, { buf with data := buf.data ++ str "null" })

/-- `Resolver.resolveBoolean`: requires kind `Boolean`. -/
def resolveBoolean (path : List String) (nullable : Bool) (data : Option Json)
    (buf : BufPair) : Option RErr × BufPair :=
  match getPath data path with
  | some (.boolVal b) =>
      (none, { buf with data := buf.data ++ (if b then str "true" else str "false") })
  | _ =>
      if !nullable then (some .nonNullable, buf)
      else (none, { buf with data := buf.data ++ str "null" })

/-- Request context: the ambient `Context` with its `Variables` JSON
bytes (parsed; `none` for nil). -/
structure Ctx where
  vars : Option Json

/-- `Variable`: `ContextVariable` reads from `ctx.Variables`,
`ObjectVariable` from the parent data. -/
inductive Variable where
  | context (path : List String) : Variable
  | object (path : List String) : Variable
deriving DecidableEq

/-- `DataSource`: `UniqueIdentifier` plus a pure `Load`, returning the
JSON value written into `Data`, the bytes appended to `Errors`, and the
returned error message (`none` for a nil error). -/
structure DataSource where
  uniqueId : Bytes
  loadFn : Bytes → Option Json × Bytes × Option Bytes

/-- `SingleFetch`. -/
structure SingleFetch where
  bufferId : Nat
  input : Bytes
  dataSource : DataSource
  vars : List Variable

/-- `Fetch`: tagged `SingleFetch` / `ParallelFetch`. -/
inductive Fetch where
  | single (f : SingleFetch) : Fetch
  | parallel (fetches : List SingleFetch) : Fetch

/-- One buffer of a `resultSet`: the JSON value the data source wrote
into `Data` (its bytes are `ser` of it, or empty for `none`) and the
raw `Errors` bytes. -/
structure SetBuf where
  dataJson : Option Json
  errors : Bytes

/-- Bytes held in a result-set buffer's `Data`. -/
def SetBuf.dataBytes (b : SetBuf) : Bytes :=
  match b.dataJson with
  | some v => ser v
  | none => []

/-- `resultSet`: buffer-id → `BufPair` map, kept as an association list
whose insert replaces (mirroring Go map assignment). -/
abbrev ResultSet := List (Nat × SetBuf)

/-- Map assignment `set.buffers[id] = buf`. -/
def rsInsert (set : ResultSet) (id : Nat) (buf : SetBuf) : ResultSet :=
  match set with
  | [] => [(id, buf)]
  | (k, v) :: rest => if k = id then (k, buf) :: rest else (k, v) :: rsInsert rest id buf

/-- Map lookup `set.buffers[id]`. -/
def rsLookup (set : ResultSet) (id : Nat) : Option SetBuf :=
  match set with
  | [] => none
  | (k, v) :: rest => if k = id then some v else rsLookup rest id

/-- First index at which `pat` occurs in `s` (`bytes.Index`). -/
def findSubIdx (pat s : Bytes) : Option Nat :=
  match s with
  | [] => if pat = [] then some 0 else none
  | _ :: rest =>
      if pat.isPrefixOf s then some 0
      else (findSubIdx pat rest).map (· + 1)

/-- Whether `pat` occurs anywhere in `s`. -/
def containsSub (pat s : Bytes) : Bool :=
  (findSubIdx pat s).isSome

/-- The marker `$$<decimal i>$$` for variable index `i`. -/
def markerOf (i : Nat) : Bytes :=
  str "$$" ++ str (toString i) ++ str "$$"

/-- The replace-every-occurrence loop of `resolveVariables`.  The Go
loop rescans from the start after each splice and diverges if the value
re-introduces the marker; the fuel only ticks on an actual replacement,
so exhaustion is unreachable whenever the marker is absent. -/
def replaceMarkerLoop : Nat → Bytes → Bytes → Bytes → Bytes
  | 0, _, _, input => input
  | fuel + 1, marker, value, input =>
      match findSubIdx marker input with
      | none => input
      | some j =>
          replaceMarkerLoop fuel marker value
            (input.take j ++ value ++ input.drop (j + marker.length))

/-- Fuel handed to the replacement loop by the fetch-preparation path. -/
def substFuel : Nat := 1000000

/-- Body of `Resolver.resolveVariables`: one pass over the variable
list, indices counting from `i`. -/
def resolveVariablesAux (ctx : Ctx) (data : Option Json) (fuel : Nat) :
    Nat → List Variable → Bytes → Bytes
  | _, [], input => input
  | i, v :: rest, input =>
      let source : Option Json :=
        match v with
        | .context _ => ctx.vars
        | .object _ => data
      let path : List String :=
        match v with
        | .context p => p
        | .object p => p
      let input' :=
        match getPath source path with
        | none => input
        | some value => replaceMarkerLoop fuel (markerOf i) (extractBytes value) input
      resolveVariablesAux ctx data fuel (i + 1) rest input'

/-- `Resolver.resolveVariables(ctx, variables, data, input)`. -/
def resolveVariables (ctx : Ctx) (vars : List Variable) (data : Option Json)
    (input : Bytes) : Bytes :=
  resolveVariablesAux ctx data substFuel 0 vars input

/-- `Resolver.prepareSingleFetch`: substitutes the variables into
`fetch.Input` (mutating the fetch) when the variable list is nonempty,
and registers a fresh buffer under `fetch.BufferId`. -/
def prepareSingleFetch (ctx : Ctx) (fetch : SingleFetch) (data : Option Json)
    (set : ResultSet) : SingleFetch × ResultSet :=
  let fetch' :=
    if fetch.vars = [] then fetch
    else { fetch with input := resolveVariables ctx fetch.vars data fetch.input }
  (fetch', rsInsert set fetch'.bufferId ⟨none, []⟩)

/-- Sequential core of `Resolver.resolveSingleFetch`: when no identical
fetch is in flight the call loads directly into the buffer (the
single-flight map is empty at every sequential call; the concurrent
protocol is modelled separately below). -/
def resolveSingleFetch (fetch : SingleFetch) (set : ResultSet) :
    Option RErr × ResultSet :=
  let (dataJson, errBytes, loadErr) := fetch.dataSource.loadFn fetch.input
  let set' :=
    match rsLookup set fetch.bufferId with
    | some b => rsInsert set fetch.bufferId ⟨dataJson, b.errors ++ errBytes⟩
    | none => rsInsert set fetch.bufferId ⟨dataJson, errBytes⟩
  (loadErr.map RErr.load, set')

/-- Preparation loop of the `ParallelFetch` branch: every sub-fetch is
prepared (buffer registered) before any sub-fetch runs. -/
def prepAllFetches (ctx : Ctx) (data : Option Json) :
    List SingleFetch → ResultSet → List SingleFetch × ResultSet
  | [], s => ([], s)
  | f :: rest, s =>
      let (f', s1) := prepareSingleFetch ctx f data s
      let (fs', s2) := prepAllFetches ctx data rest s1
      (f' :: fs', s2)

/-- Fan-out of the `ParallelFetch` branch: every sub-fetch runs into
its own registered buffer and its error is discarded
(`_ = r.resolveSingleFetch(...)`). -/
def runAllFetches : List SingleFetch → ResultSet → ResultSet
  | [], s => s
  | f :: rest, s => runAllFetches rest (resolveSingleFetch f s).2

/-- `Resolver.resolveFetch`: single fetches propagate the load error;
parallel fetches prepare everything first, then run every sub-fetch and
discard the errors (`_ = r.resolveSingleFetch(...)`). -/
def resolveFetch (ctx : Ctx) (fetch : Fetch) (data : Option Json)
    (set : ResultSet) : Option RErr × ResultSet :=
  match fetch with
  | .single f =>
      let (f', set1) := prepareSingleFetch ctx f data set
      resolveSingleFetch f' set1
  | .parallel fetches =>
      let (prepared, set1) := prepAllFetches ctx data fetches set
      (none, runAllFetches prepared set1)

mutual

/-- `Node`: the shape-tree variants of the source (`Object`,
`EmptyObject`, `Array`, `EmptyArray`, `Null`, `String`, `Boolean`,
`Integer`, `Float`). -/
inductive Node where
  | object (obj : ObjectNode) : Node
  | emptyObject : Node
  | array (arr : ArrayNode) : Node
  | emptyArray : Node
  | nullValue : Node
  | stringValue (path : List String) (nullable : Bool) : Node
  | booleanValue (path : List String) (nullable : Bool) : Node
  | integerValue (path : List String) (nullable : Bool) : Node
  | floatValue (path : List String) (nullable : Bool) : Node

/-- `Object { nullable, Path, FieldSets, Fetch }`. -/
inductive ObjectNode where
  | mk (nullable : Bool) (path : List String) (fieldSets : List FieldSet)
      (fetch : Option Fetch) : ObjectNode

/-- `Array { nullable, Path, ResolveAsynchronous, Item }`. -/
inductive ArrayNode where
  | mk (nullable : Bool) (path : List String) (resolveAsynchronous : Bool)
      (item : Node) : ArrayNode

/-- `FieldSet { OnTypeName, BufferID, HasBuffer, Fields }`. -/
inductive FieldSet where
  | mk (onTypeName : Option Bytes) (bufferId : Nat) (hasBuffer : Bool)
      (fields : List Field) : FieldSet

/-- `Field { Name, Value }`. -/
inductive Field where
  | mk (name : Bytes) (value : Node) : Field

end

/-- `Object.nullable`. -/
def ObjectNode.nullable : ObjectNode → Bool
  | .mk n _ _ _ => n

/-- `Object.Path`. -/
def ObjectNode.path : ObjectNode → List String
  | .mk _ p _ _ => p

/-- `Object.FieldSets`. -/
def ObjectNode.fieldSets : ObjectNode → List FieldSet
  | .mk _ _ fs _ => fs

/-- `Object.Fetch`. -/
def ObjectNode.fetch : ObjectNode → Option Fetch
  | .mk _ _ _ f => f

/-- `Array.nullable`. -/
def ArrayNode.nullable : ArrayNode → Bool
  | .mk n _ _ _ => n

/-- `Array.Path`. -/
def ArrayNode.path : ArrayNode → List String
  | .mk _ p _ _ => p

/-- `Array.ResolveAsynchronous`. -/
def ArrayNode.resolveAsynchronous : ArrayNode → Bool
  | .mk _ _ a _ => a

/-- `Array.Item`. -/
def ArrayNode.item : ArrayNode → Node
  | .mk _ _ _ i => i

/-- `FieldSet.HasBuffer`. -/
def FieldSet.hasBuffer : FieldSet → Bool
  | .mk _ _ h _ => h

/-- `FieldSet.BufferID`. -/
def FieldSet.bufferId : FieldSet → Nat
  | .mk _ b _ _ => b

/-- The element slices `jsonparser.ArrayEach(data, ..., path)` yields:
the elements when the value at `path` is an array, nothing otherwise
(`ArrayEach` errors are ignored by `resolveArray`). -/
def arrayItems (data : Option Json) (path : List String) : List Json :=
  match getPath data path with
  | some (.arr elems) => elems
  | _ => []

/-- The `fieldSetData` selection of `resolveObject` (lines 493-501): a
field set with `HasBuffer` reads the fetched buffer's bytes, and keeps
nil data when the buffer id is absent; without a buffer (or without a
fetch) it reads the ambient parent data. -/
def fieldSetDataOf (set : Option ResultSet) (hasBuffer : Bool) (bufferId : Nat)
    (data : Option Json) : Option Json :=
  match set with
  | some s =>
      if hasBuffer then
        match rsLookup s bufferId with
        | some b => b.dataJson
        | none => none
      else data
  | none => data

/-- The `__typename` bytes extracted for the `OnTypeName` gate (empty
on extraction failure, as the Go `jsonparser.Get` error leaves the
value nil). -/
def typeNameBytes (fsData : Option Json) : Bytes :=
  match getPath fsData ["__typename"] with
  | some v => extractBytes v
  | none => []

/-- The error merge over `set.buffers` run by `resolveObject` before
walking the field sets. -/
def mergeSetErrors : ResultSet → BufPair → BufPair
  | [], buf => buf
  | (_, b) :: rest, buf =>
      let (_, _, buf') := mergeBufPairErrors ⟨b.dataBytes, b.errors⟩ buf
      mergeSetErrors rest buf'

/-- The one-slot error channel of `resolveArrayAsynchronous`: the first
fatal (non-skip) element error is retained.  The goroutine race may let
any fatal error win; index order is the deterministic choice, which is
observationally equal whenever at most one distinct fatal error exists
among the elements. -/
def firstAsyncErr : List (Option RErr × BufPair) → Option RErr
  | [] => none
  | (some e, _) :: rest =>
      if e = RErr.typeNameSkipped then firstAsyncErr rest else some e
  | (none, _) :: rest => firstAsyncErr rest

/-- The `hasPreviousItem` update of both array element loops:
`if !hasPreviousItem && dataWritten != 0 { hasPreviousItem = true }`. -/
def nextHasPrev (hp : Bool) (dw : Nat) : Bool :=
  if !hp ∧ dw ≠ 0 then true else hp

/-- The ordered post-join merge fold of `resolveArrayAsynchronous`. -/
def mergeAsyncBufs : List BufPair → BufPair → Bool → BufPair × Bool
  | [], ab, hp => (ab, hp)
  | b :: rest, ab, hp =>
      let (dw, _, _, ab') := mergeBufPairs b ab hp
      mergeAsyncBufs rest ab' (nextHasPrev hp dw)

mutual

/-- `Resolver.resolveNode`: dispatch on the node variant. -/
def resolveNode (ctx : Ctx) (node : Node) (data : Option Json) (buf : BufPair) :
    Option RErr × BufPair :=
  match node with
  | .object obj => resolveObject ctx obj data buf
  | .array arr => resolveArray ctx arr data buf
  | .nullValue => (none, { buf with data := buf.data ++ str "null" })
  | .stringValue path nullable => resolveString path nullable data buf
  | .booleanValue path nullable => resolveBoolean path nullable data buf
  | .integerValue path nullable => resolveInteger path nullable data buf
  | .floatValue path nullable => resolveFloat path nullable data buf
  | .emptyObject => (none, { buf with data := buf.data ++ str "\x7b\x7d" })
  | .emptyArray => (none, { buf with data := buf.data ++ str "[]" })
termination_by (sizeOf node, 0, 0)

/-- `Resolver.resolveObject`: walk the path, run the fetch (propagating
its error), merge fetch errors, then walk the field sets. -/
def resolveObject (ctx : Ctx) (obj : ObjectNode) (data0 : Option Json) (buf : BufPair) :
    Option RErr × BufPair :=
  match obj with
  | .mk nullable path fieldSets fetch =>
      let data := if path = [] then data0 else getPath data0 path
      match fetch with
      | some f =>
          match resolveFetch ctx f data [] with
          | (some e, _) => (some e, buf)
          | (none, set) =>
              resolveObjectFieldSetsPhase ctx nullable fieldSets (some set) data
                (mergeSetErrors set buf)
      | none => resolveObjectFieldSetsPhase ctx nullable fieldSets none data buf
termination_by (sizeOf obj, 0, 3)

/-- Field-set phase of `resolveObject`: the loop over `object.FieldSets`
followed by the `first` / `typeNameSkip` endgame (lines 537-546); a
child `NonNullableFieldIsNull` under a nullable object resets the data
buffer and renders `null`. -/
def resolveObjectFieldSetsPhase (ctx : Ctx) (nullable : Bool) (fieldSets : List FieldSet)
    (set? : Option ResultSet) (data : Option Json) (buf : BufPair) :
    Option RErr × BufPair :=
  match resolveFieldSets ctx fieldSets set? data BufPair.empty buf true false with
  | (some e, _, objBuf, _, _) =>
      if e = RErr.nonNullable ∧ nullable then (none, { objBuf with data := str "null" })
      else (some e, objBuf)
  | (none, _, objBuf, first, skip) =>
      if first then
        if !nullable then
          if skip then (some RErr.typeNameSkipped, objBuf)
          else (some RErr.nonNullable, objBuf)
        else (none, { objBuf with data := objBuf.data ++ str "null" })
      else (none, { objBuf with data := objBuf.data ++ str "\x7d" })
termination_by (sizeOf fieldSets, 0, 2)

/-- The loop over field sets: pick `fieldSetData`, apply the
`OnTypeName` gate, resolve the fields.  Returns
`(err, fieldBuf, objBuf, first, typeNameSkip)`. -/
def resolveFieldSets (ctx : Ctx) (sets : List FieldSet) (set? : Option ResultSet)
    (data : Option Json) (fieldBuf objBuf : BufPair) (first skip : Bool) :
    Option RErr × BufPair × BufPair × Bool × Bool :=
  match sets with
  | [] => (none, fieldBuf, objBuf, first, skip)
  | .mk onTypeName bufferId hasBuffer fields :: rest =>
      let fsData := fieldSetDataOf set? hasBuffer bufferId data
      let skipThis : Bool :=
        match onTypeName with
        | some expected => typeNameBytes fsData ≠ expected
        | none => false
      if skipThis then resolveFieldSets ctx rest set? data fieldBuf objBuf first true
      else
        match resolveFields ctx fields fsData fieldBuf objBuf first with
        | (some e, fb, ob, fst) => (some e, fb, ob, fst, skip)
        | (none, fb, ob, fst) => resolveFieldSets ctx rest set? data fb ob fst skip
termination_by (sizeOf sets, 0, 1)

/-- The loop over one field set's fields: emit `{` or `,`, the quoted
name and `:` into the object buffer, resolve the value into the scratch
field buffer, merge without comma.  Returns
`(err, fieldBuf, objBuf, first)`. -/
def resolveFields (ctx : Ctx) (fields : List Field) (fsData : Option Json)
    (fieldBuf objBuf : BufPair) (first : Bool) :
    Option RErr × BufPair × BufPair × Bool :=
  match fields with
  | [] => (none, fieldBuf, objBuf, first)
  | .mk name value :: rest =>
      let lead : Bytes := if first then str "\x7b" else str ","
      let objBuf1 :=
        { objBuf with data := objBuf.data ++ lead ++ str "\"" ++ name ++ str "\"" ++ str ":" }
      match resolveNode ctx value fsData fieldBuf with
      | (some e, fb) => (some e, fb, objBuf1, false)
      | (none, fb) =>
          let (_, _, fb2, ob2) := mergeBufPairs fb objBuf1 false
          resolveFields ctx rest fsData fb2 ob2 false
termination_by (sizeOf fields, 0, 1)

/-- `Resolver.resolveArray`: collect the element slices; when empty,
fail `NonNullableFieldIsNull` or emit `null`; otherwise dispatch on
`ResolveAsynchronous`. -/
def resolveArray (ctx : Ctx) (arr : ArrayNode) (data : Option Json) (buf : BufPair) :
    Option RErr × BufPair :=
  match arr with
  | .mk nullable path async item =>
      match arrayItems data path with
      | [] =>
          if !nullable then (some RErr.nonNullable, buf)
          else (none, { buf with data := buf.data ++ str "null" })
      | it :: rest =>
          if async then resolveArrayAsynchronous ctx nullable item (it :: rest) buf
          else resolveArraySynchronous ctx nullable item (it :: rest) buf
termination_by (sizeOf arr, 0, 3)

/-- `Resolver.resolveArraySynchronous`: `[`, the element loop with one
reused scratch buffer, `]`; a `NonNullableFieldIsNull` under a nullable
array resets the data buffer and renders `null`. -/
def resolveArraySynchronous (ctx : Ctx) (nullable : Bool) (item : Node)
    (items : List Json) (buf : BufPair) : Option RErr × BufPair :=
  let ab0 := { buf with data := buf.data ++ str "[" }
  match resolveItemsSync ctx item items BufPair.empty ab0 false with
  | (some e, _, ab, _) =>
      if e = RErr.nonNullable ∧ nullable then (none, { ab with data := str "null" })
      else (some e, ab)
  | (none, _, ab, _) => (none, { ab with data := ab.data ++ str "]" })
termination_by (sizeOf item, items.length + 1, 2)

/-- `Resolver.resolveArrayAsynchronous`: every element resolves into
its own fresh buffer; after the join, the first fatal error applies the
same null policy, otherwise the buffers merge in source order. -/
def resolveArrayAsynchronous (ctx : Ctx) (nullable : Bool) (item : Node)
    (items : List Json) (buf : BufPair) : Option RErr × BufPair :=
  let ab0 := { buf with data := buf.data ++ str "[" }
  let results := resolveItemsAsync ctx item items
  match firstAsyncErr results with
  | some e =>
      if e = RErr.nonNullable ∧ nullable then (none, { ab0 with data := str "null" })
      else (some e, ab0)
  | none =>
      let (ab1, _) := mergeAsyncBufs (results.map (·.2)) ab0 false
      (none, { ab1 with data := ab1.data ++ str "]" })
termination_by (sizeOf item, items.length + 1, 2)

/-- Synchronous element loop: resolve into the shared scratch buffer,
skip `TypeNameSkipped` elements (leaving the scratch buffer as is),
stop at the first other error, merge with the `hasPreviousItem` comma
discipline. -/
def resolveItemsSync (ctx : Ctx) (item : Node) (items : List Json)
    (itemBuf arrayBuf : BufPair) (hasPrev : Bool) :
    Option RErr × BufPair × BufPair × Bool :=
  match items with
  | [] => (none, itemBuf, arrayBuf, hasPrev)
  | it :: rest =>
      match resolveNode ctx item (some it) itemBuf with
      | (some e, ib) =>
          if e = RErr.typeNameSkipped then
            resolveItemsSync ctx item rest ib arrayBuf hasPrev
          else (some e, ib, arrayBuf, hasPrev)
      | (none, ib) =>
          let (dw, _, ib2, ab2) := mergeBufPairs ib arrayBuf hasPrev
          resolveItemsSync ctx item rest ib2 ab2 (nextHasPrev hasPrev dw)
termination_by (sizeOf item, items.length, 1)

/-- The goroutine fan-out of `resolveArrayAsynchronous`: one fresh
buffer per element, resolved independently, results in source order. -/
def resolveItemsAsync (ctx : Ctx) (item : Node) (items : List Json) :
    List (Option RErr × BufPair) :=
  match items with
  | [] => []
  | it :: rest =>
      resolveNode ctx item (some it) BufPair.empty :: resolveItemsAsync ctx item rest
termination_by (sizeOf item, items.length, 1)

end

/-- `Resolver.ResolveGraphQLResponse`: resolve the root node into a
scratch buffer, then frame `{"Errors":[…],"data":…}`; a resolution
error aborts before any sink write. -/
def resolveGraphQLResponse (ctx : Ctx) (responseData : Node) (data : Option Json) :
    Option RErr × Bytes :=
  match resolveNode ctx responseData data BufPair.empty with
  | (some e, _) => (some e, [])
  | (none, buf) =>
      let errPart : Bytes :=
        if buf.errors = [] then []
        else str "\"Errors\":[" ++ buf.errors ++ str "]"
      let dataPart : Bytes :=
        if buf.data = [] then []
        else (if buf.errors = [] then [] else str ",") ++ str "\"data\":" ++ buf.data
      (none, str "\x7b" ++ errPart ++ dataPart ++ str "\x7d")

/-! ### Claim C7: empty arrays -/

/-- C7: for every Array node whose path yields zero elements, resolution
fails with `NonNullableFieldIsNull` when the array is not nullable and
emits the literal bytes `null` (never `[]`) when it is nullable. -/
theorem c7_empty_array (ctx : Ctx) (arr : ArrayNode) (data : Option Json) (buf : BufPair)
    (h : arrayItems data arr.path = []) :
    resolveArray ctx arr data buf =
      (if arr.nullable then (none, { buf with data := buf.data ++ str "null" })
       else (some RErr.nonNullable, buf)) := by
  obtain ⟨n, p, a, i⟩ := arr
  simp only [ArrayNode.path] at h
  rw [resolveArray, h]
  cases n <;> simp [ArrayNode.nullable]

/-- Witness for C7 at a concrete empty-array input. -/
theorem c7_empty_array_witness :
    resolveArray ⟨none⟩ (ArrayNode.mk true ["xs"] false .nullValue)
        (some (.obj [("xs", .arr [])])) BufPair.empty
      = (none, { BufPair.empty with data := BufPair.empty.data ++ str "null" }) := by
  have h := c7_empty_array ⟨none⟩ (ArrayNode.mk true ["xs"] false .nullValue)
    (some (.obj [("xs", .arr [])])) BufPair.empty rfl
  simpa [ArrayNode.nullable] using h

/-! ### Claim C8: scalar resolution -/

/-- C8: each scalar resolver emits `null` (nullable) or fails
`NonNullableFieldIsNull` (non-nullable) when extraction fails or the
extracted kind mismatches (`Number` for Integer/Float, `Boolean` for
Boolean, `String` for String); on a kind match it writes the raw
extracted bytes, strings wrapped in double quotes with no
re-escaping. -/
theorem c8_scalar_kinds (path : List String) (nullable : Bool) (data : Option Json)
    (buf : BufPair) :
    (∀ s, getPath data path = some (.strVal s) →
        resolveString path nullable data buf
          = (none, { buf with data := buf.data ++ str "\"" ++ s ++ str "\"" }))
  ∧ ((∀ s, getPath data path ≠ some (.strVal s)) →
        resolveString path nullable data buf
          = (if nullable then (none, { buf with data := buf.data ++ str "null" })
             else (some RErr.nonNullable, buf)))
  ∧ (∀ b, getPath data path = some (.boolVal b) →
        resolveBoolean path nullable data buf
          = (none, { buf with data := buf.data ++ extractBytes (.boolVal b) }))
  ∧ ((∀ b, getPath data path ≠ some (.boolVal b)) →
        resolveBoolean path nullable data buf
          = (if nullable then (none, { buf with data := buf.data ++ str "null" })
             else (some RErr.nonNullable, buf)))
  ∧ (∀ raw, getPath data path = some (.num raw) →
        resolveInteger path nullable data buf = (none, { buf with data := buf.data ++ raw })
      ∧ resolveFloat path nullable data buf = (none, { buf with data := buf.data ++ raw }))
  ∧ ((∀ raw, getPath data path ≠ some (.num raw)) →
        resolveInteger path nullable data buf
          = (if nullable then (none, { buf with data := buf.data ++ str "null" })
             else (some RErr.nonNullable, buf))
      ∧ resolveFloat path nullable data buf
          = (if nullable then (none, { buf with data := buf.data ++ str "null" })
             else (some RErr.nonNullable, buf))) := by
  refine ⟨?_, ?_, ?_, ?_, ?_, ?_⟩
  · intro s hs
    have hd : data.isNone = false := by
      cases data with
      | none => simp [getPath] at hs
      | some v => rfl
    simp [resolveString, hs, hd]
  · intro hns
    rcases hg : getPath data path with _ | v
    · simp [resolveString, hg]; cases nullable <;> simp
    · cases v with
      | strVal s => exact absurd hg (hns s)
      | _ => simp [resolveString, hg]; cases nullable <;> simp
  · intro b hb
    cases b <;> simp [resolveBoolean, hb, extractBytes, ser]
  · intro hnb
    rcases hg : getPath data path with _ | v
    · simp [resolveBoolean, hg]; cases nullable <;> simp
    · cases v with
      | boolVal b => exact absurd hg (hnb b)
      | _ => simp [resolveBoolean, hg]; cases nullable <;> simp
  · intro raw hr
    constructor <;> simp [resolveInteger, resolveFloat, hr]
  · intro hnr
    rcases hg : getPath data path with _ | v
    · constructor <;> (simp [resolveInteger, resolveFloat, hg]; cases nullable <;> simp)
    · cases v with
      | num raw => exact absurd hg (hnr raw)
      | _ =>
          constructor <;> (simp [resolveInteger, resolveFloat, hg]; cases nullable <;> simp)

/-- Witness for C8: a concrete string match and a concrete integer
mismatch. -/
theorem c8_scalar_kinds_witness :
    resolveString ["g"] false (some (.obj [("g", .strVal (str "w"))])) BufPair.empty
      = (none, { BufPair.empty with
                  data := BufPair.empty.data ++ str "\"" ++ str "w" ++ str "\"" })
  ∧ resolveInteger ["g"] true (some (.obj [("g", .strVal (str "w"))])) BufPair.empty
      = (none, { BufPair.empty with data := BufPair.empty.data ++ str "null" }) := by
  constructor
  · exact (c8_scalar_kinds ["g"] false (some (.obj [("g", .strVal (str "w"))]))
      BufPair.empty).1 (str "w") rfl
  · have h := (c8_scalar_kinds ["g"] true (some (.obj [("g", .strVal (str "w"))]))
      BufPair.empty).2.2.2.2.2 (by intro raw h; simp [getPath, lookupField] at h)
    simpa using h.1

/-! ### Claim C9: variable substitution fixpoint -/

/-- When the marker does not occur, the replacement loop is the
identity for every fuel. -/
theorem replaceMarkerLoop_not_found (fuel : Nat) (marker value input : Bytes)
    (h : findSubIdx marker input = none) :
    replaceMarkerLoop fuel marker value input = input := by
  cases fuel <;> simp [replaceMarkerLoop, h]

/-- One substitution pass starting at index `start` leaves marker-free
input unchanged. -/
theorem resolveVariablesAux_fix (ctx : Ctx) (data : Option Json) (fuel : Nat)
    (vars : List Variable) (start : Nat) (input : Bytes)
    (h : ∀ i, i < vars.length → findSubIdx (markerOf (start + i)) input = none) :
    resolveVariablesAux ctx data fuel start vars input = input := by
  induction vars generalizing start with
  | nil => simp [resolveVariablesAux]
  | cons v rest ih =>
      have h0 : findSubIdx (markerOf start) input = none := by
        have := h 0 (by simp)
        simpa using this
      have hrest : ∀ i, i < rest.length → findSubIdx (markerOf (start + 1 + i)) input = none := by
        intro i hi
        have hx := h (i + 1) (by simpa using Nat.succ_lt_succ hi)
        have : start + (i + 1) = start + 1 + i := by omega
        rwa [this] at hx
      cases v with
      | context p =>
          rcases hg : getPath ctx.vars p with _ | value
          · simpa [resolveVariablesAux, hg] using ih (start + 1) hrest
          · simpa [resolveVariablesAux, hg, replaceMarkerLoop_not_found fuel _ _ _ h0]
              using ih (start + 1) hrest
      | object p =>
          rcases hg : getPath data p with _ | value
          · simpa [resolveVariablesAux, hg] using ih (start + 1) hrest
          · simpa [resolveVariablesAux, hg, replaceMarkerLoop_not_found fuel _ _ _ h0]
              using ih (start + 1) hrest

/-- C9: once no marker `$$i$$` with `i` in range of the variable list
occurs in the bytes, applying the substitution (again) returns them
unchanged — substitution is a fixpoint after all markers are
consumed. -/
theorem c9_substitution_fixpoint (ctx : Ctx) (vars : List Variable) (data : Option Json)
    (input : Bytes)
    (h : ∀ i, i < vars.length → containsSub (markerOf i) input = false) :
    resolveVariables ctx vars data input = input := by
  apply resolveVariablesAux_fix
  intro i hi
  have hx := h i hi
  simp only [containsSub] at hx
  have hnone : findSubIdx (markerOf i) input = none := by
    cases hg : findSubIdx (markerOf i) input with
    | none => rfl
    | some j => rw [hg] at hx; simp at hx
  simpa using hnone

/-- Witness for C9 on concrete marker-free bytes. -/
theorem c9_substitution_fixpoint_witness :
    resolveVariables ⟨some (.obj [("a", .num (str "1"))])⟩
        [.context ["a"], .object ["b"]] (some (.obj [])) (str "x=1,y=2")
      = str "x=1,y=2" := by
  apply c9_substitution_fixpoint
  intro i hi
  have h2 : i = 0 ∨ i = 1 := by simp at hi; omega
  rcases h2 with h2 | h2 <;> subst h2 <;> decide

/-! ### Claim C10: error bytes only grow

No code path of the walker ever resets the `Errors` buffer: the
`objectBuf.Data.Reset()` / `arrayBuf.Data.Reset()` of the
null-propagation catches touch only `Data`.  The lemmas below show that
every resolve step extends the incoming error bytes. -/

/-- Merging leaves the destination's data-merge untouched on the error
side and only appends on the error merge. -/
theorem mergeBufPairData_errors (src dst : BufPair) (c : Bool) :
    (mergeBufPairData src dst c).2.2.errors = dst.errors := by
  unfold mergeBufPairData
  split <;> rfl

theorem mergeBufPairErrors_grow (src dst : BufPair) :
    ∃ t, (mergeBufPairErrors src dst).2.2.errors = dst.errors ++ t := by
  unfold mergeBufPairErrors
  split
  · exact ⟨[], by simp⟩
  · refine ⟨(if dst.errors = [] then [] else str ",") ++ src.errors, ?_⟩
    simp

theorem mergeBufPairs_errors_grow (src dst : BufPair) (c : Bool) :
    ∃ t, (mergeBufPairs src dst c).2.2.2.errors = dst.errors ++ t := by
  unfold mergeBufPairs
  obtain ⟨t, ht⟩ := mergeBufPairErrors_grow (mergeBufPairData src dst c).2.1
    (mergeBufPairData src dst c).2.2
  exact ⟨t, by simpa [mergeBufPairData_errors] using ht⟩

theorem mergeSetErrors_grow (set : ResultSet) (buf : BufPair) :
    ∃ t, (mergeSetErrors set buf).errors = buf.errors ++ t := by
  induction set generalizing buf with
  | nil => exact ⟨[], by simp [mergeSetErrors]⟩
  | cons kv rest ih =>
      obtain ⟨k, b⟩ := kv
      obtain ⟨t1, h1⟩ := mergeBufPairErrors_grow ⟨b.dataBytes, b.errors⟩ buf
      obtain ⟨t2, h2⟩ := ih (mergeBufPairErrors ⟨b.dataBytes, b.errors⟩ buf).2.2
      exact ⟨t1 ++ t2, by simp [mergeSetErrors, h2, h1]⟩

theorem mergeAsyncBufs_errors_grow (bufs : List BufPair) (ab : BufPair) (hp : Bool) :
    ∃ t, (mergeAsyncBufs bufs ab hp).1.errors = ab.errors ++ t := by
  induction bufs generalizing ab hp with
  | nil => exact ⟨[], by simp [mergeAsyncBufs]⟩
  | cons b rest ih =>
      rcases hm : mergeBufPairs b ab hp with ⟨dw, ew, src2, dst2⟩
      obtain ⟨t1, h1⟩ : ∃ t, dst2.errors = ab.errors ++ t := by
        have := mergeBufPairs_errors_grow b ab hp
        rwa [hm] at this
      obtain ⟨t2, h2⟩ := ih dst2 (nextHasPrev hp dw)
      refine ⟨t1 ++ t2, ?_⟩
      rw [mergeAsyncBufs, hm]
      dsimp only
      rw [h2, h1, List.append_assoc]

/-- Scalar resolvers never touch the error buffer. -/
theorem resolveString_errors (p : List String) (n : Bool) (data : Option Json) (buf : BufPair) :
    (resolveString p n data buf).2.errors = buf.errors := by
  rcases hg : getPath data p with _ | v
  · simp only [resolveString, hg]
    split <;> rfl
  · cases v <;> simp only [resolveString, hg] <;> first | (split <;> rfl) | rfl

/-- Scalar resolvers never touch the error buffer. -/
theorem resolveBoolean_errors (p : List String) (n : Bool) (data : Option Json) (buf : BufPair) :
    (resolveBoolean p n data buf).2.errors = buf.errors := by
  rcases hg : getPath data p with _ | v
  · simp only [resolveBoolean, hg]
    split <;> rfl
  · cases v <;> simp only [resolveBoolean, hg] <;> first | (split <;> rfl) | rfl

/-- Scalar resolvers never touch the error buffer. -/
theorem resolveInteger_errors (p : List String) (n : Bool) (data : Option Json) (buf : BufPair) :
    (resolveInteger p n data buf).2.errors = buf.errors := by
  rcases hg : getPath data p with _ | v
  · simp only [resolveInteger, hg]
    split <;> rfl
  · cases v <;> simp only [resolveInteger, hg] <;> first | (split <;> rfl) | rfl

/-- Scalar resolvers never touch the error buffer. -/
theorem resolveFloat_errors (p : List String) (n : Bool) (data : Option Json) (buf : BufPair) :
    (resolveFloat p n data buf).2.errors = buf.errors := by
  rcases hg : getPath data p with _ | v
  · simp only [resolveFloat, hg]
    split <;> rfl
  · cases v <;> simp only [resolveFloat, hg] <;> first | (split <;> rfl) | rfl

theorem resolveFields_errors_grow (ctx : Ctx) (fields : List Field) (fsData : Option Json)
    (fieldBuf objBuf : BufPair) (first : Bool) :
    ∃ t, (resolveFields ctx fields fsData fieldBuf objBuf first).2.2.1.errors
      = objBuf.errors ++ t := by
  induction fields generalizing fieldBuf objBuf first with
  | nil => exact ⟨[], by simp [resolveFields]⟩
  | cons f rest ih =>
      obtain ⟨name, value⟩ := f
      rw [resolveFields]
      rcases hres : resolveNode ctx value fsData fieldBuf with ⟨e, fb⟩
      cases e with
      | some e => exact ⟨[], by simp⟩
      | none =>
          simp only
          set objBuf1 : BufPair :=
            { objBuf with
              data := objBuf.data ++ (if first then str "\x7b" else str ",")
                ++ str "\"" ++ name ++ str "\"" ++ str ":" } with hob1
          obtain ⟨t1, h1⟩ := mergeBufPairs_errors_grow fb objBuf1 false
          obtain ⟨t2, h2⟩ := ih (mergeBufPairs fb objBuf1 false).2.2.1
            (mergeBufPairs fb objBuf1 false).2.2.2 false
          refine ⟨t1 ++ t2, ?_⟩
          rw [h2, h1]
          simp [hob1]

theorem resolveFieldSets_errors_grow (ctx : Ctx) (sets : List FieldSet)
    (set? : Option ResultSet) (data : Option Json) (fieldBuf objBuf : BufPair)
    (first skip : Bool) :
    ∃ t, (resolveFieldSets ctx sets set? data fieldBuf objBuf first skip).2.2.1.errors
      = objBuf.errors ++ t := by
  induction sets generalizing fieldBuf objBuf first skip with
  | nil => exact ⟨[], by simp [resolveFieldSets]⟩
  | cons fs rest ih =>
      obtain ⟨onTypeName, bufferId, hasBuffer, fields⟩ := fs
      rw [resolveFieldSets.eq_def]
      simp only
      split
      · exact ih fieldBuf objBuf first true
      · rcases hres : resolveFields ctx fields
          (fieldSetDataOf set? hasBuffer bufferId data) fieldBuf objBuf first
          with ⟨e, fb, ob, fst⟩
        obtain ⟨t1, h1⟩ : ∃ t, ob.errors = objBuf.errors ++ t := by
          have := resolveFields_errors_grow ctx fields
            (fieldSetDataOf set? hasBuffer bufferId data) fieldBuf objBuf first
          rwa [hres] at this
        cases e with
        | some e => exact ⟨t1, by simpa using h1⟩
        | none =>
            obtain ⟨t2, h2⟩ := ih fb ob fst skip
            exact ⟨t1 ++ t2, by simp [h2, h1]⟩

theorem resolveObjectFieldSetsPhase_errors_grow (ctx : Ctx) (nullable : Bool)
    (fieldSets : List FieldSet) (set? : Option ResultSet) (data : Option Json)
    (buf : BufPair) :
    ∃ t, (resolveObjectFieldSetsPhase ctx nullable fieldSets set? data buf).2.errors
      = buf.errors ++ t := by
  rw [resolveObjectFieldSetsPhase]
  rcases hres : resolveFieldSets ctx fieldSets set? data BufPair.empty buf true false
    with ⟨e, fb, ob, fst, sk⟩
  obtain ⟨t1, h1⟩ : ∃ t, ob.errors = buf.errors ++ t := by
    have := resolveFieldSets_errors_grow ctx fieldSets set? data BufPair.empty buf true false
    rwa [hres] at this
  cases e with
  | some e =>
      by_cases hc : e = RErr.nonNullable ∧ nullable
      · exact ⟨t1, by simp [hc, h1]⟩
      · exact ⟨t1, by simp [hc, h1]⟩
  | none =>
      cases fst <;> cases nullable <;> cases sk <;> exact ⟨t1, by simp [h1]⟩

theorem resolveItemsSync_errors_grow (ctx : Ctx) (item : Node) (items : List Json)
    (itemBuf arrayBuf : BufPair) (hasPrev : Bool) :
    ∃ t, (resolveItemsSync ctx item items itemBuf arrayBuf hasPrev).2.2.1.errors
      = arrayBuf.errors ++ t := by
  induction items generalizing itemBuf arrayBuf hasPrev with
  | nil => exact ⟨[], by simp [resolveItemsSync]⟩
  | cons it rest ih =>
      rcases hres : resolveNode ctx item (some it) itemBuf with ⟨e, ib⟩
      rw [resolveItemsSync, hres]
      cases e with
      | some e =>
          dsimp only
          by_cases hc : e = RErr.typeNameSkipped
          · rw [if_pos hc]
            exact ih ib arrayBuf hasPrev
          · rw [if_neg hc]
            exact ⟨[], by simp⟩
      | none =>
          dsimp only
          rcases hm : mergeBufPairs ib arrayBuf hasPrev with ⟨dw, ew, ib2, ab2⟩
          obtain ⟨t1, h1⟩ : ∃ t, ab2.errors = arrayBuf.errors ++ t := by
            have := mergeBufPairs_errors_grow ib arrayBuf hasPrev
            rwa [hm] at this
          obtain ⟨t2, h2⟩ := ih ib2 ab2 (nextHasPrev hasPrev dw)
          refine ⟨t1 ++ t2, ?_⟩
          dsimp only
          rw [h2, h1, List.append_assoc]

theorem resolveArraySynchronous_errors_grow (ctx : Ctx) (nullable : Bool) (item : Node)
    (items : List Json) (buf : BufPair) :
    ∃ t, (resolveArraySynchronous ctx nullable item items buf).2.errors
      = buf.errors ++ t := by
  rw [resolveArraySynchronous]
  rcases hres : resolveItemsSync ctx item items BufPair.empty
    { buf with data := buf.data ++ str "[" } false with ⟨e, ib, ab, hp⟩
  obtain ⟨t1, h1⟩ : ∃ t, ab.errors = buf.errors ++ t := by
    have := resolveItemsSync_errors_grow ctx item items BufPair.empty
      { buf with data := buf.data ++ str "[" } false
    rwa [hres] at this
  cases e with
  | some e =>
      by_cases hc : e = RErr.nonNullable ∧ nullable
      · exact ⟨t1, by simp [hc, h1]⟩
      · exact ⟨t1, by simp [hc, h1]⟩
  | none => exact ⟨t1, by simp [h1]⟩

theorem resolveArrayAsynchronous_errors_grow (ctx : Ctx) (nullable : Bool) (item : Node)
    (items : List Json) (buf : BufPair) :
    ∃ t, (resolveArrayAsynchronous ctx nullable item items buf).2.errors
      = buf.errors ++ t := by
  rw [resolveArrayAsynchronous]
  rcases hres : firstAsyncErr (resolveItemsAsync ctx item items) with _ | e
  · obtain ⟨t1, h1⟩ := mergeAsyncBufs_errors_grow
      ((resolveItemsAsync ctx item items).map (·.2))
      { buf with data := buf.data ++ str "[" } false
    exact ⟨t1, by simpa using h1⟩
  · by_cases hc : e = RErr.nonNullable ∧ nullable
    · exact ⟨[], by simp [hc]⟩
    · exact ⟨[], by simp [hc]⟩

theorem resolveObject_errors_grow (ctx : Ctx) (obj : ObjectNode) (data : Option Json)
    (buf : BufPair) :
    ∃ t, (resolveObject ctx obj data buf).2.errors = buf.errors ++ t := by
  obtain ⟨nullable, path, fieldSets, fetch⟩ := obj
  rw [resolveObject.eq_def]
  dsimp only
  cases fetch with
  | none => exact resolveObjectFieldSetsPhase_errors_grow ctx nullable fieldSets none _ buf
  | some f =>
      dsimp only
      rcases hres : resolveFetch ctx f (if path = [] then data else getPath data path) []
        with ⟨e, set⟩
      cases e with
      | some e => exact ⟨[], by simp⟩
      | none =>
          dsimp only
          obtain ⟨t1, h1⟩ := mergeSetErrors_grow set buf
          obtain ⟨t2, h2⟩ := resolveObjectFieldSetsPhase_errors_grow ctx nullable fieldSets
            (some set) (if path = [] then data else getPath data path)
            (mergeSetErrors set buf)
          exact ⟨t1 ++ t2, by rw [h2, h1, List.append_assoc]⟩

theorem resolveArray_errors_grow (ctx : Ctx) (arr : ArrayNode) (data : Option Json)
    (buf : BufPair) :
    ∃ t, (resolveArray ctx arr data buf).2.errors = buf.errors ++ t := by
  obtain ⟨nullable, path, async, item⟩ := arr
  rw [resolveArray]
  rcases hitems : arrayItems data path with _ | ⟨it, rest⟩
  · cases nullable <;> exact ⟨[], by simp⟩
  · cases async
    · exact resolveArraySynchronous_errors_grow ctx nullable item (it :: rest) buf
    · exact resolveArrayAsynchronous_errors_grow ctx nullable item (it :: rest) buf

/-- C10: across every resolve step — in particular when a nullable
Object or nullable Array catches a child's `NonNullableFieldIsNull` and
replaces its output with `null` — only the `Data` buffer is reset: the
bytes already accumulated in `Errors` (for example fetch errors merged
earlier) are preserved (first conjunct), and whenever resolution
succeeds with a non-empty error buffer the envelope's error list
contains exactly those bytes (second conjunct). -/
theorem c10_errors_preserved :
    (∀ (ctx : Ctx) (node : Node) (data : Option Json) (buf : BufPair),
      ∃ t, (resolveNode ctx node data buf).2.errors = buf.errors ++ t)
  ∧ (∀ (ctx : Ctx) (node : Node) (data : Option Json) (buf' : BufPair),
      resolveNode ctx node data BufPair.empty = (none, buf') → buf'.errors ≠ [] →
      (resolveGraphQLResponse ctx node data).2
        = str "\x7b" ++ str "\"Errors\":[" ++ buf'.errors ++ str "]"
          ++ (if buf'.data = [] then []
              else str "," ++ str "\"data\":" ++ buf'.data) ++ str "\x7d") := by
  constructor
  · intro ctx node data buf
    cases node with
    | object obj => simpa [resolveNode] using resolveObject_errors_grow ctx obj data buf
    | array arr => simpa [resolveNode] using resolveArray_errors_grow ctx arr data buf
    | nullValue => exact ⟨[], by simp [resolveNode]⟩
    | emptyObject => exact ⟨[], by simp [resolveNode]⟩
    | emptyArray => exact ⟨[], by simp [resolveNode]⟩
    | stringValue p n => exact ⟨[], by simp [resolveNode, resolveString_errors]⟩
    | booleanValue p n => exact ⟨[], by simp [resolveNode, resolveBoolean_errors]⟩
    | integerValue p n => exact ⟨[], by simp [resolveNode, resolveInteger_errors]⟩
    | floatValue p n => exact ⟨[], by simp [resolveNode, resolveFloat_errors]⟩
  · intro ctx node data buf' hres herr
    by_cases hd : buf'.data = []
    · simp [resolveGraphQLResponse, hres, herr, hd]
    · simp [resolveGraphQLResponse, hres, herr, hd]

/-- Witness for C10: a nullable array catches a failing second element
after the first element succeeded carrying fetch error bytes; the
preserved error bytes reach the envelope. -/
theorem c10_errors_preserved_witness :
    (∃ t, (resolveNode ⟨none⟩
        (.object (.mk true [] [.mk none 0 false [.mk (str "f") (.stringValue ["x"] false)]]
          none))
        (some (.obj [])) ⟨[], str "E"⟩).2.errors = str "E" ++ t)
  ∧ (resolveGraphQLResponse ⟨none⟩
        (.object (.mk false [] [.mk none 0 false [.mk (str "h") (.stringValue ["x"] true)]]
          (some (.single ⟨0, str "q", ⟨str "e", fun _ => (none, str "E", none)⟩, []⟩))))
        (some (.obj []))).2
      = str "\x7b" ++ str "\"Errors\":[" ++ str "E" ++ str "]"
        ++ (if str "\x7b\"h\":null\x7d" = ([] : Bytes) then []
            else str "," ++ str "\"data\":" ++ str "\x7b\"h\":null\x7d") ++ str "\x7d" := by
  constructor
  · exact c10_errors_preserved.1 ⟨none⟩ _ _ _
  · have hres : resolveNode ⟨none⟩
        (.object (.mk false [] [.mk none 0 false [.mk (str "h") (.stringValue ["x"] true)]]
          (some (.single ⟨0, str "q", ⟨str "e", fun _ => (none, str "E", none)⟩, []⟩))))
        (some (.obj [])) BufPair.empty
        = (none, ⟨str "\x7b\"h\":null\x7d", str "E"⟩) := by
      simp [resolveNode, resolveObject, resolveObjectFieldSetsPhase, resolveFieldSets,
        resolveFields, fieldSetDataOf, resolveString, getPath, lookupField, mergeBufPairs,
        mergeBufPairData, mergeBufPairErrors, mergeSetErrors, resolveFetch,
        prepareSingleFetch, resolveSingleFetch, rsLookup, rsInsert, BufPair.empty,
        SetBuf.dataBytes, str]
    exact c10_errors_preserved.2 ⟨none⟩ _ (some (.obj [])) _ hres (by decide)

/-! ### Claim C3: field set with a missing buffer -/

/-- C3 counterexample: an Object whose fetch registers buffer 0 while a
field set references buffer 1 with `HasBuffer`.  The field resolves
against nil data (rendering `null`), not against the ambient parent
data `{"x":"v"}` — the same field set without a buffer renders `"v"`. -/
theorem c3_counterexample :
    (resolveObject ⟨none⟩
        (.mk false [] [.mk none 1 true [.mk (str "h") (.stringValue ["x"] true)]]
          (some (.single ⟨0, str "q", ⟨str "ds", fun _ => (none, [], none)⟩, []⟩)))
        (some (.obj [("x", .strVal (str "v"))])) BufPair.empty).2.data
      = str "\x7b\"h\":null\x7d"
  ∧ (resolveObject ⟨none⟩
        (.mk false [] [.mk none 1 false [.mk (str "h") (.stringValue ["x"] true)]]
          (some (.single ⟨0, str "q", ⟨str "ds", fun _ => (none, [], none)⟩, []⟩)))
        (some (.obj [("x", .strVal (str "v"))])) BufPair.empty).2.data
      = str "\x7b\"h\":\"v\"\x7d"
  ∧ str "\x7b\"h\":null\x7d" ≠ str "\x7b\"h\":\"v\"\x7d" := by
  refine ⟨?_, ?_, by decide⟩ <;>
  simp [resolveObject, resolveNode, resolveObjectFieldSetsPhase, resolveFieldSets,
    resolveFields, fieldSetDataOf, resolveString, getPath, lookupField, mergeBufPairs,
    mergeBufPairData, mergeBufPairErrors, mergeSetErrors, resolveFetch, prepareSingleFetch,
    resolveSingleFetch, rsLookup, rsInsert, BufPair.empty, SetBuf.dataBytes, str]

/-- C3 amended: a `has_buffer` field set whose buffer id is absent from
the result set after the fetch resolves against nil data (every
extraction fails), not against the ambient parent data. -/
theorem c3_missing_buffer_nil_data (set : ResultSet) (hasBuffer : Bool) (bufferId : Nat)
    (data : Option Json) (hb : hasBuffer = true) (hmiss : rsLookup set bufferId = none) :
    fieldSetDataOf (some set) hasBuffer bufferId data = none := by
  subst hb
  simp [fieldSetDataOf, hmiss]

/-- Witness for the amended C3 at a concrete result set. -/
theorem c3_missing_buffer_nil_data_witness :
    fieldSetDataOf (some [(0, ⟨none, []⟩)]) true 1 (some (.obj [])) = none :=
  c3_missing_buffer_nil_data [(0, ⟨none, []⟩)] true 1 (some (.obj [])) rfl rfl

/-! ### Claim C1: fetch error propagation -/

/-- C1 counterexample: a `SingleFetch` whose `Load` returns a non-nil
error.  `resolveFetch` returns that error (not nil), and `resolveObject`
surfaces it as a fatal return — the error is not swallowed in the
single-fetch mode. -/
theorem c1_counterexample :
    (resolveFetch ⟨none⟩
        (.single ⟨0, str "q", ⟨str "ds", fun _ => (none, [], some (str "boom"))⟩, []⟩)
        none []).1
      = some (.load (str "boom"))
  ∧ (resolveObject ⟨none⟩
        (.mk true [] [.mk none 0 true [.mk (str "h") (.stringValue ["x"] true)]]
          (some (.single ⟨0, str "q", ⟨str "ds", fun _ => (none, [], some (str "boom"))⟩, []⟩)))
        none BufPair.empty).1
      = some (.load (str "boom")) := by
  constructor <;>
  simp [resolveObject, resolveFetch, prepareSingleFetch, resolveSingleFetch,
    rsLookup, rsInsert, str]

/-- C1 amended: only the `ParallelFetch` mode swallows `Load` errors
(`resolveFetch` returns nil and the fetches' effect comes only from the
buffers); a `SingleFetch`'s `Load` error is returned by `resolveFetch`
and surfaces as a fatal return from `resolveObject`. -/
theorem c1_fetch_error_propagation :
    (∀ (ctx : Ctx) (fetches : List SingleFetch) (data : Option Json) (set : ResultSet),
        (resolveFetch ctx (.parallel fetches) data set).1 = none)
  ∧ (∀ (ctx : Ctx) (f : SingleFetch) (data : Option Json) (set : ResultSet),
        (resolveFetch ctx (.single f) data set).1
          = ((prepareSingleFetch ctx f data set).1.dataSource.loadFn
              (prepareSingleFetch ctx f data set).1.input).2.2.map RErr.load)
  ∧ (∀ (ctx : Ctx) (nullable : Bool) (path : List String) (fieldSets : List FieldSet)
        (fe : Fetch) (data : Option Json) (buf : BufPair) (e : RErr) (rs : ResultSet),
        resolveFetch ctx fe (if path = [] then data else getPath data path) [] = (some e, rs) →
        resolveObject ctx (.mk nullable path fieldSets (some fe)) data buf
          = (some e, buf)) := by
  refine ⟨?_, ?_, ?_⟩
  · intro ctx fetches data set
    simp [resolveFetch]
  · intro ctx f data set
    rcases hl : (prepareSingleFetch ctx f data set).1.dataSource.loadFn
        (prepareSingleFetch ctx f data set).1.input with ⟨dj, eb, le⟩
    simp [resolveFetch, resolveSingleFetch, hl]
  · intro ctx nullable path fieldSets fe data buf e rs h
    rw [resolveObject.eq_def]
    dsimp only
    rw [h]

/-- Witness for the amended C1: the parallel mode swallows a concrete
erroring sub-fetch; the single mode surfaces the same error from
`resolveObject`. -/
theorem c1_fetch_error_propagation_witness :
    (resolveFetch ⟨none⟩
        (.parallel [⟨0, str "q", ⟨str "ds", fun _ => (none, [], some (str "boom"))⟩, []⟩])
        none []).1 = none
  ∧ resolveObject ⟨none⟩
        (.mk true [] [] (some (.single ⟨0, str "q",
          ⟨str "ds", fun _ => (none, [], some (str "boom"))⟩, []⟩)))
        none BufPair.empty
      = (some (.load (str "boom")), BufPair.empty) := by
  constructor
  · exact c1_fetch_error_propagation.1 ⟨none⟩ _ none []
  · refine c1_fetch_error_propagation.2.2 ⟨none⟩ true [] []
      (.single ⟨0, str "q", ⟨str "ds", fun _ => (none, [], some (str "boom"))⟩, []⟩)
      none BufPair.empty (.load (str "boom"))
      [(0, ⟨none, str ""⟩)] ?_
    simp [resolveFetch, prepareSingleFetch, resolveSingleFetch, rsLookup, rsInsert, str]

/-! ### Claim C6: the resolver mutates `SingleFetch.Input` -/

/-- C6 counterexample: `prepareSingleFetch` overwrites `fetch.Input`
with the substituted bytes when the fetch carries variables, so the
shape tree handed to the resolver is mutated. -/
theorem c6_counterexample :
    ((prepareSingleFetch ⟨some (.obj [("a", .num (str "1"))])⟩
        ⟨0, str "x=$$0$$", ⟨str "ds", fun _ => (none, [], none)⟩, [.context ["a"]]⟩
        none []).1.input = str "x=1")
  ∧ str "x=1" ≠ str "x=$$0$$" := by
  constructor
  · rfl
  · decide

/-- C6 amended: the resolver's only mutation of the shape tree is
`prepareSingleFetch` overwriting `SingleFetch.Input` with the
variable-substituted input; every other field of the fetch is
unchanged, and a fetch without variables is returned untouched. -/
theorem c6_mutation_confined_to_input (ctx : Ctx) (f : SingleFetch) (data : Option Json)
    (set : ResultSet) :
    ((prepareSingleFetch ctx f data set).1.bufferId = f.bufferId
      ∧ (prepareSingleFetch ctx f data set).1.dataSource = f.dataSource
      ∧ (prepareSingleFetch ctx f data set).1.vars = f.vars)
  ∧ (f.vars = [] → (prepareSingleFetch ctx f data set).1 = f)
  ∧ (prepareSingleFetch ctx f data set).1.input
      = (if f.vars = [] then f.input else resolveVariables ctx f.vars data f.input) := by
  by_cases h : f.vars = [] <;>
    simp [prepareSingleFetch, h]

/-- Witness for the amended C6 at a concrete variable-free fetch. -/
theorem c6_mutation_confined_to_input_witness :
    (prepareSingleFetch ⟨none⟩ ⟨0, str "q", ⟨str "ds", fun _ => (none, [], none)⟩, []⟩
        none []).1
      = ⟨0, str "q", ⟨str "ds", fun _ => (none, [], none)⟩, []⟩ :=
  (c6_mutation_confined_to_input ⟨none⟩
    ⟨0, str "q", ⟨str "ds", fun _ => (none, [], none)⟩, []⟩ none []).2.1 rfl

/-! ### Claim C4: synchronous vs asynchronous array resolution -/

/-- C4 counterexample: a nullable array (same shape, only the
`ResolveAsynchronous` flag differs) whose first element succeeds while
its fetch contributes error bytes and whose second element fails
`NonNullableFieldIsNull`.  The synchronous path has already merged the
first element's errors into the array buffer when it catches; the
asynchronous path discards every element buffer on the fatal error, so
the `Errors` bytes differ. -/
theorem c4_counterexample :
    (resolveArray ⟨none⟩
        (.mk true ["xs"] false
          (.object (.mk false [] [.mk none 0 false [.mk (str "a") (.stringValue ["a"] false)]]
            (some (.single ⟨0, str "in", ⟨str "e", fun _ => (none, str "E", none)⟩, []⟩)))))
        (some (.obj [("xs", .arr [.obj [("a", .strVal (str "x"))], .obj []])]))
        BufPair.empty).2.errors
      = str "E"
  ∧ (resolveArray ⟨none⟩
        (.mk true ["xs"] true
          (.object (.mk false [] [.mk none 0 false [.mk (str "a") (.stringValue ["a"] false)]]
            (some (.single ⟨0, str "in", ⟨str "e", fun _ => (none, str "E", none)⟩, []⟩)))))
        (some (.obj [("xs", .arr [.obj [("a", .strVal (str "x"))], .obj []])]))
        BufPair.empty).2.errors
      = []
  ∧ str "E" ≠ ([] : Bytes) := by
  refine ⟨?_, ?_, by decide⟩ <;>
  simp [resolveArray, arrayItems, getPath, lookupField, resolveArraySynchronous,
    resolveArrayAsynchronous, resolveItemsSync, resolveItemsAsync, firstAsyncErr,
    mergeAsyncBufs, nextHasPrev, resolveNode, resolveObject, resolveObjectFieldSetsPhase,
    resolveFieldSets, resolveFields, fieldSetDataOf, resolveString, mergeBufPairs,
    mergeBufPairData, mergeBufPairErrors, mergeSetErrors, resolveFetch, prepareSingleFetch,
    resolveSingleFetch, rsLookup, rsInsert, BufPair.empty, SetBuf.dataBytes, str]

/-- The merge always leaves the source `BufPair` drained. -/
theorem mergeBufPairs_src_drained (src dst : BufPair) (c : Bool) :
    (mergeBufPairs src dst c).2.2.1 = BufPair.empty := by
  obtain ⟨sd, se⟩ := src
  unfold mergeBufPairs mergeBufPairData mergeBufPairErrors
  by_cases hd : sd = [] <;> by_cases he : se = [] <;>
    simp [hd, he, BufPair.empty]

/-- When no element errors, the one-slot channel stays empty. -/
theorem firstAsyncErr_none (ctx : Ctx) (item : Node) (items : List Json)
    (h : ∀ d ∈ items, (resolveNode ctx item (some d) BufPair.empty).1 = none) :
    firstAsyncErr (resolveItemsAsync ctx item items) = none := by
  induction items with
  | nil => simp [resolveItemsAsync, firstAsyncErr]
  | cons it rest ih =>
      have h0 := h it (by simp)
      rcases hres : resolveNode ctx item (some it) BufPair.empty with ⟨e, ib⟩
      rw [hres] at h0
      dsimp at h0
      subst h0
      rw [resolveItemsAsync, hres]
      simpa [firstAsyncErr] using ih (fun d hd => h d (by simp [hd]))

/-- When no element errors, the synchronous loop equals the ordered
post-join fold of the asynchronous path: the scratch buffer is drained
by every merge, so each element resolves from a fresh buffer in both
modes. -/
theorem resolveItemsSync_no_error (ctx : Ctx) (item : Node) (items : List Json)
    (arrayBuf : BufPair) (hp : Bool)
    (h : ∀ d ∈ items, (resolveNode ctx item (some d) BufPair.empty).1 = none) :
    resolveItemsSync ctx item items BufPair.empty arrayBuf hp
      = (none, BufPair.empty,
         (mergeAsyncBufs ((resolveItemsAsync ctx item items).map (·.2)) arrayBuf hp).1,
         (mergeAsyncBufs ((resolveItemsAsync ctx item items).map (·.2)) arrayBuf hp).2) := by
  induction items generalizing arrayBuf hp with
  | nil => simp [resolveItemsSync, resolveItemsAsync, mergeAsyncBufs]
  | cons it rest ih =>
      have h0 := h it (by simp)
      rcases hres : resolveNode ctx item (some it) BufPair.empty with ⟨e, ib⟩
      rw [hres] at h0
      dsimp at h0
      subst h0
      rw [resolveItemsSync, hres, resolveItemsAsync, hres]
      dsimp only
      rcases hm : mergeBufPairs ib arrayBuf hp with ⟨dw, ew, ib2, ab2⟩
      have hib2 : ib2 = BufPair.empty := by
        have := mergeBufPairs_src_drained ib arrayBuf hp
        rw [hm] at this
        exact this
      subst hib2
      rw [ih ab2 (nextHasPrev hp dw) (fun d hd => h d (by simp [hd]))]
      rw [List.map_cons, mergeAsyncBufs, hm]

/-- When no element errors, the asynchronous array resolution equals
the synchronous one. -/
theorem resolveArrayAsync_eq_sync (ctx : Ctx) (nullable : Bool) (item : Node)
    (items : List Json) (buf : BufPair)
    (h : ∀ d ∈ items, (resolveNode ctx item (some d) BufPair.empty).1 = none) :
    resolveArrayAsynchronous ctx nullable item items buf
      = resolveArraySynchronous ctx nullable item items buf := by
  rw [resolveArrayAsynchronous, resolveArraySynchronous]
  rw [resolveItemsSync_no_error ctx item items _ false h]
  rw [firstAsyncErr_none ctx item items h]

/-- C4 amended: resolving an Array with `ResolveAsynchronous = true`
produces exactly the same result (Data and Errors bytes) as with the
flag false, provided every element resolves without error.  When an
element fails, the two modes can differ (see the counterexample): the
synchronous loop has already merged earlier elements' error bytes while
the asynchronous path frees all element buffers unmerged. -/
theorem c4_async_flag_immaterial (ctx : Ctx) (nullable : Bool) (path : List String)
    (item : Node) (data : Option Json) (buf : BufPair)
    (h : ∀ d ∈ arrayItems data path, (resolveNode ctx item (some d) BufPair.empty).1 = none) :
    resolveArray ctx (.mk nullable path true item) data buf
      = resolveArray ctx (.mk nullable path false item) data buf := by
  rw [resolveArray.eq_def, resolveArray.eq_def]
  dsimp only
  rcases hit : arrayItems data path with _ | ⟨it, rest⟩
  · rfl
  · rw [hit] at h
    simpa using resolveArrayAsync_eq_sync ctx nullable item (it :: rest) buf h

/-- Witness for the amended C4 on a concrete two-element array. -/
theorem c4_async_flag_immaterial_witness :
    resolveArray ⟨none⟩ (.mk false ["xs"] true .nullValue)
        (some (.obj [("xs", .arr [.obj [], .obj []])])) BufPair.empty
      = resolveArray ⟨none⟩ (.mk false ["xs"] false .nullValue)
        (some (.obj [("xs", .arr [.obj [], .obj []])])) BufPair.empty := by
  apply c4_async_flag_immaterial
  intro d hd
  simp [resolveNode]

/-! ### Claim C2: null propagation to the nearest nullable ancestor

The claim quantifies over shape trees with a missing non-nullable leaf.
We formalise the ancestor chain as a list of object frames, outermost
first: each frame wraps the next level in a single-field-set Object
(optionally preceded by a sibling `Null` field, to witness sibling
erasure), and the innermost position holds an arbitrary leaf whose
resolution fails with `NonNullableFieldIsNull` without writing. -/

/-- One ancestor frame: an Object with field `"f"` holding the next
level, optionally preceded by a sibling field `"s"` of shape `Null`. -/
structure Frame where
  sib : Bool
  nullable : Bool

/-- Wrap a leaf in a chain of ancestor frames, outermost first. -/
def wrapFrames : List Frame → Node → Node
  | [], leaf => leaf
  | f :: rest, leaf =>
      .object (.mk f.nullable [] [.mk none 0 false
        ((if f.sib then [Field.mk (str "s") .nullValue] else []) ++
         [Field.mk (str "f") (wrapFrames rest leaf)])] none)

/-- Index (outermost = 0) of the deepest nullable frame: the nearest
nullable ancestor of the leaf. -/
def lastNullableIdx : List Frame → Option Nat
  | [] => none
  | f :: rest =>
      match lastNullableIdx rest with
      | some k => some (k + 1)
      | none => if f.nullable then some 0 else none

/-- The bytes a successful frame writes before its main field's value. -/
def frameOpen (f : Frame) : Bytes :=
  str "\x7b" ++ (if f.sib then str "\"s\":null," else []) ++ str "\"f\":"

/-- Concatenated opens of a frame prefix. -/
def opensOf : List Frame → Bytes
  | [] => []
  | f :: rest => frameOpen f ++ opensOf rest

/-- `k` closing braces. -/
def closesOf (k : Nat) : Bytes := List.replicate k '\x7d'

/-- The open written by the outermost frame (left behind in the buffer
when the error propagates past it). -/
def headOpen : List Frame → Bytes
  | [] => []
  | f :: _ => frameOpen f

/-- Result of resolving a frame chain over a failing leaf: if no frame
is nullable, `NonNullableFieldIsNull` propagates (the outermost open is
left in the buffer); otherwise the deepest nullable frame catches,
erases everything written inside it (including the incoming buffer data
when it is the outermost node) and renders `null`, and the frames above
wrap it. -/
def spineResult (frames : List Frame) (buf : BufPair) : Option RErr × BufPair :=
  match lastNullableIdx frames with
  | none => (some RErr.nonNullable, { buf with data := buf.data ++ headOpen frames })
  | some k =>
      let dataOut : Bytes :=
        (if k = 0 then [] else buf.data) ++ opensOf (frames.take k)
          ++ str "null" ++ closesOf k
      (none, { buf with data := dataOut })

theorem lastNullableIdx_lt (frames : List Frame) (k : Nat)
    (h : lastNullableIdx frames = some k) : k < frames.length := by
  induction frames generalizing k with
  | nil => simp [lastNullableIdx] at h
  | cons f rest ih =>
      rcases hk : lastNullableIdx rest with _ | k'
      · rw [lastNullableIdx, hk] at h
        by_cases hn : f.nullable
        · simp [hn] at h
          simp only [List.length_cons]
          omega
        · simp [hn] at h
      · rw [lastNullableIdx, hk] at h
        simp at h
        have := ih k' hk
        simp only [List.length_cons]
        omega

/-- Resolving a frame chain over a failing leaf computes `spineResult`. -/
theorem wrapFrames_resolve (ctx : Ctx) (leaf : Node) (d : Option Json)
    (hleaf : ∀ b, resolveNode ctx leaf d b = (some RErr.nonNullable, b))
    (frames : List Frame) : ∀ buf : BufPair,
    resolveNode ctx (wrapFrames frames leaf) d buf = spineResult frames buf := by
  induction frames with
  | nil =>
      intro buf
      simp [wrapFrames, spineResult, lastNullableIdx, headOpen, hleaf buf]
  | cons f rest ih =>
      intro buf
      obtain ⟨sib, nullable⟩ := f
      cases sib <;> cases nullable <;>
        rcases hk : lastNullableIdx rest with _ | k <;>
        simp [wrapFrames, resolveNode, resolveObject, resolveObjectFieldSetsPhase,
          resolveFieldSets, resolveFields, fieldSetDataOf, mergeBufPairs,
          mergeBufPairData, mergeBufPairErrors, BufPair.empty, spineResult,
          lastNullableIdx, hk, headOpen, frameOpen, opensOf, closesOf, ih,
          List.replicate_succ', str]

/-- C2 amended: for every ancestor chain over a missing non-nullable
leaf, `ResolveGraphQLResponse` returns the `NonNullableFieldIsNull`
error and writes no envelope iff the leaf has no nullable ancestor;
otherwise the nearest (deepest) nullable ancestor renders as `null`
with its already-written sibling output erased, and the envelope
contains exactly `"data":null` iff that ancestor is the root. -/
theorem c2_null_propagation (ctx : Ctx) (leaf : Node) (d : Option Json)
    (frames : List Frame)
    (hleaf : ∀ b, resolveNode ctx leaf d b = (some RErr.nonNullable, b)) :
    (lastNullableIdx frames = none →
        resolveGraphQLResponse ctx (wrapFrames frames leaf) d = (some RErr.nonNullable, []))
  ∧ (∀ k, lastNullableIdx frames = some k →
        resolveGraphQLResponse ctx (wrapFrames frames leaf) d
          = (none, str "\x7b\"data\":" ++ opensOf (frames.take k) ++ str "null"
              ++ closesOf k ++ str "\x7d")
        ∧ (opensOf (frames.take k) ++ str "null" ++ closesOf k = str "null" ↔ k = 0)) := by
  constructor
  · intro hnone
    unfold resolveGraphQLResponse
    rw [wrapFrames_resolve ctx leaf d hleaf frames BufPair.empty]
    simp [spineResult, hnone]
  · intro k hk
    constructor
    · unfold resolveGraphQLResponse
      rw [wrapFrames_resolve ctx leaf d hleaf frames BufPair.empty]
      simp [spineResult, hk, BufPair.empty, str]
    · constructor
      · intro heq
        by_contra hk0
        obtain ⟨k', rfl⟩ : ∃ k', k = k' + 1 := ⟨k - 1, by omega⟩
        have hlen := lastNullableIdx_lt frames (k' + 1) hk
        obtain ⟨f0, rest, rfl⟩ : ∃ f0 rest, frames = f0 :: rest := by
          cases frames with
          | nil => simp [lastNullableIdx] at hk
          | cons a b => exact ⟨a, b, rfl⟩
        simp [List.take_succ_cons, opensOf, frameOpen, str] at heq
      · intro hk0
        subst hk0
        simp [opensOf, closesOf]

/-- C2 counterexample: a nullable root Object over a missing
non-nullable String leaf.  The leaf HAS a nullable ancestor (the root,
`nullable = true`), yet the envelope is exactly `{"data":null}` and so
contains `"data":null` — refuting the claimed "iff the leaf has no
nullable ancestor".  (With no nullable ancestor at all the call instead
returns the error and emits no envelope; see the amended theorem.) -/
theorem c2_counterexample :
    (resolveGraphQLResponse ⟨none⟩
        (.object (.mk true [] [.mk none 0 false [.mk (str "f") (.stringValue ["x"] false)]]
          none))
        (some (.obj []))).2
      = str "\x7b\"data\":null\x7d"
  ∧ containsSub (str "\"data\":null")
      (resolveGraphQLResponse ⟨none⟩
        (.object (.mk true [] [.mk none 0 false [.mk (str "f") (.stringValue ["x"] false)]]
          none))
        (some (.obj []))).2 = true
  ∧ (ObjectNode.mk true [] [.mk none 0 false [.mk (str "f") (.stringValue ["x"] false)]]
      none).nullable = true := by
  have h : (resolveGraphQLResponse ⟨none⟩
      (.object (.mk true [] [.mk none 0 false [.mk (str "f") (.stringValue ["x"] false)]]
        none))
      (some (.obj []))).2 = str "\x7b\"data\":null\x7d" := by
    simp [resolveGraphQLResponse, resolveNode, resolveObject, resolveObjectFieldSetsPhase,
      resolveFieldSets, resolveFields, fieldSetDataOf, resolveString, getPath, lookupField,
      mergeBufPairs, mergeBufPairData, mergeBufPairErrors, BufPair.empty, str]
  refine ⟨h, ?_, rfl⟩
  rw [h]
  decide

/-- Witness for the amended C2: two frames, root non-nullable, inner
frame nullable with a sibling; the inner frame catches and the sibling
bytes are erased, so the envelope nests a single `"f"` around `null`. -/
theorem c2_null_propagation_witness :
    resolveGraphQLResponse ⟨none⟩
        (wrapFrames [⟨false, false⟩, ⟨true, true⟩] (.stringValue ["x"] false))
        (some (.obj []))
      = (none, str "\x7b\"data\":" ++ opensOf [⟨false, false⟩] ++ str "null"
          ++ closesOf 1 ++ str "\x7d") := by
  have h := (c2_null_propagation ⟨none⟩ (.stringValue ["x"] false) (some (.obj []))
    [⟨false, false⟩, ⟨true, true⟩]
    (fun b => by simp [resolveNode, resolveString, getPath, lookupField])).2 1 rfl
  simpa using h.1

/-! ### Claim C5: single-flight deduplication

`resolveSingleFetch` is concurrent code; we model it as a small-step
interleaving system for two threads that computed the same fingerprint
(same `UniqueIdentifier`, same post-substitution input).  The shared
data source's pure outcome on that input is given by the parameters
`D`/`E` (bytes `Load` writes into the buffer pair) and `Er` (its
returned error).  Each atomic step mirrors one region of the Go code
between synchronization points; the three field assignments and the
`wg.Done()` of the leader collapse into one publish step, which is
sound here because the only reader blocks in `wg.Wait()` until `Done`.
With exactly two callers the record returned to the pool by the
leader's deferred `Put` is never re-allocated, so the record simply
stays in the global state. -/

/-- Program counter of one `resolveSingleFetch` call. -/
inductive PC where
  | start : PC
  | lookup : PC
  | followerWait : PC
  | followerCopy : PC
  | leaderLoad : PC
  | leaderPublish : PC
  | leaderRelock : PC
  | leaderDelete : PC
  | finished : PC
deriving DecidableEq

/-- One caller: its position, its own `BufPair`, the returned error
once finished, and bookkeeping flags for which path it took. -/
structure ThreadState where
  pc : PC
  buf : BufPair
  ret : Option (Option Bytes)
  led : Bool
  followed : Bool
deriving DecidableEq

/-- The `inflightFetch` record: `wg` counter, `err`, `data`, `errors`
(`none` = nil slice). -/
structure FlightRec where
  gate : Nat
  err : Option Bytes
  dataBytes : Option Bytes
  errorsBytes : Option Bytes
deriving DecidableEq

/-- Shared state: the mutex holder, whether the fingerprint is in
`inflightFetches`, the allocated record, and the `Load` call count. -/
structure Global where
  lockBy : Option Bool
  mapHas : Bool
  inflight : Option FlightRec
  loads : Nat
deriving DecidableEq

/-- The whole two-thread system (thread `true` and thread `false`). -/
structure SFState where
  g : Global
  a : ThreadState
  b : ThreadState
deriving DecidableEq

/-- One atomic step of one thread; a blocked or finished thread leaves
the state unchanged. -/
def stepThread (D E : Bytes) (Er : Option Bytes) (g : Global) (t : ThreadState)
    (tid : Bool) : Global × ThreadState :=
  match t.pc with
  | .start =>
      match g.lockBy with
      | none => ({ g with lockBy := some tid }, { t with pc := .lookup })
      | some _ => (g, t)
  | .lookup =>
      if g.mapHas then
        ({ g with lockBy := none }, { t with pc := .followerWait, followed := true })
      else
        ({ g with lockBy := none, mapHas := true, inflight := some ⟨1, none, none, none⟩ },
         { t with pc := .leaderLoad })
  | .followerWait =>
      match g.inflight with
      | some r => if r.gate = 0 then (g, { t with pc := .followerCopy }) else (g, t)
      | none => (g, t)
  | .followerCopy =>
      match g.inflight with
      | some r =>
          let buf' : BufPair :=
            ⟨t.buf.data ++ r.dataBytes.getD [], t.buf.errors ++ r.errorsBytes.getD []⟩
          (g, { t with pc := .finished, buf := buf', ret := some r.err })
      | none => (g, t)
  | .leaderLoad =>
      let buf' : BufPair := ⟨t.buf.data ++ D, t.buf.errors ++ E⟩
      ({ g with loads := g.loads + 1 },
       { t with pc := .leaderPublish, buf := buf', led := true })
  | .leaderPublish =>
      ({ g with inflight := some ⟨0, Er, some t.buf.data, some t.buf.errors⟩ },
       { t with pc := .leaderRelock })
  | .leaderRelock =>
      match g.lockBy with
      | none => ({ g with lockBy := some tid }, { t with pc := .leaderDelete })
      | some _ => (g, t)
  | .leaderDelete =>
      ({ g with lockBy := none, mapHas := false },
       { t with pc := .finished, ret := some Er })
  | .finished => (g, t)

/-- Step the scheduled thread. -/
def sfStep (D E : Bytes) (Er : Option Bytes) (s : SFState) (tid : Bool) : SFState :=
  if tid then
    let (g', a') := stepThread D E Er s.g s.a true
    { s with g := g', a := a' }
  else
    let (g', b') := stepThread D E Er s.g s.b false
    { s with g := g', b := b' }

/-- Run a schedule (list of thread choices). -/
def sfRun (D E : Bytes) (Er : Option Bytes) : List Bool → SFState → SFState
  | [], s => s
  | tid :: rest, s => sfRun D E Er rest (sfStep D E Er s tid)

/-- Both callers start with fresh buffers; the map is empty, the mutex
free, no record allocated, no load performed. -/
def sfInit : SFState :=
  ⟨⟨none, false, none, 0⟩,
   ⟨.start, BufPair.empty, none, false, false⟩,
   ⟨.start, BufPair.empty, none, false, false⟩⟩

/-- The leader region: between map insert and map delete. -/
def leaderPC (p : PC) : Prop :=
  p = .leaderLoad ∨ p = .leaderPublish ∨ p = .leaderRelock ∨ p = .leaderDelete

/-- Per-thread invariant (`o` is the other thread).  The mutex holder
needs no tracking here: each modelled step is atomic, so the lock only
matters for fidelity of the step relation, not for the safety
argument. -/
def thrInv (D E : Bytes) (Er : Option Bytes) (g : Global) (t o : ThreadState) : Prop :=
  (t.pc = .leaderLoad →
      t.led = false ∧ t.followed = false ∧ t.buf = BufPair.empty
        ∧ g.inflight = some ⟨1, none, none, none⟩)
  ∧ (t.pc = .leaderPublish →
      t.led = true ∧ t.buf = ⟨D, E⟩
        ∧ g.inflight = some ⟨1, none, none, none⟩)
  ∧ ((t.pc = .leaderRelock ∨ t.pc = .leaderDelete) →
      t.led = true ∧ t.buf = ⟨D, E⟩
        ∧ g.inflight = some ⟨0, Er, some D, some E⟩)
  ∧ (t.pc = .finished → t.led = true → t.buf = ⟨D, E⟩ ∧ t.ret = some Er)
  ∧ (t.pc = .finished → t.followed = true → t.buf = ⟨D, E⟩ ∧ t.ret = some Er)
  ∧ ((t.pc = .start ∨ t.pc = .lookup) →
      t.led = false ∧ t.followed = false ∧ t.buf = BufPair.empty)
  ∧ ((t.pc = .followerWait ∨ t.pc = .followerCopy) →
      t.followed = true ∧ t.led = false ∧ t.buf = BufPair.empty)
  ∧ (t.pc = .followerCopy → g.inflight = some ⟨0, Er, some D, some E⟩)
  ∧ (t.followed = true → t.led = false)
  ∧ (t.followed = true → leaderPC o.pc ∨ o.led = true)

/-- System invariant. -/
def sfInv (D E : Bytes) (Er : Option Bytes) (s : SFState) : Prop :=
  thrInv D E Er s.g s.a s.b
  ∧ thrInv D E Er s.g s.b s.a
  ∧ (s.g.mapHas = true ↔ (leaderPC s.a.pc ∨ leaderPC s.b.pc))
  ∧ ¬(leaderPC s.a.pc ∧ leaderPC s.b.pc)
  ∧ (s.g.inflight = none
      ∨ s.g.inflight = some ⟨1, none, none, none⟩
      ∨ s.g.inflight = some ⟨0, Er, some D, some E⟩)
  ∧ s.g.loads = (if s.a.led then 1 else 0) + (if s.b.led then 1 else 0)

/-- The invariant holds initially. -/
theorem sfInv_init (D E : Bytes) (Er : Option Bytes) : sfInv D E Er sfInit := by
  simp [sfInv, thrInv, sfInit, leaderPC]

set_option maxHeartbeats 1000000 in
theorem stepThread_inv (D E : Bytes) (Er : Option Bytes) (g : Global)
    (t o : ThreadState) (tid : Bool) (g' : Global) (t' : ThreadState)
    (ht : thrInv D E Er g t o) (ho : thrInv D E Er g o t)
    (hmap : g.mapHas = true ↔ (leaderPC t.pc ∨ leaderPC o.pc))
    (hboth : ¬(leaderPC t.pc ∧ leaderPC o.pc))
    (hrec : g.inflight = none ∨ g.inflight = some ⟨1, none, none, none⟩
      ∨ g.inflight = some ⟨0, Er, some D, some E⟩)
    (hloads : g.loads = (if t.led then 1 else 0) + (if o.led then 1 else 0))
    (hstep : stepThread D E Er g t tid = (g', t')) :
    thrInv D E Er g' t' o ∧ thrInv D E Er g' o t'
  ∧ (g'.mapHas = true ↔ (leaderPC t'.pc ∨ leaderPC o.pc))
  ∧ ¬(leaderPC t'.pc ∧ leaderPC o.pc)
  ∧ (g'.inflight = none ∨ g'.inflight = some ⟨1, none, none, none⟩
      ∨ g'.inflight = some ⟨0, Er, some D, some E⟩)
  ∧ g'.loads = (if t'.led then 1 else 0) + (if o.led then 1 else 0) := by
  obtain ⟨glock, gmap, grec, gloads⟩ := g
  obtain ⟨tpc, tbuf, tret, tled, tfol⟩ := t
  obtain ⟨opc, obuf, oret, oled, ofol⟩ := o
  simp only [thrInv] at ht ho
  obtain ⟨ht1, ht2, ht3, ht4, ht5, ht6, ht7, ht8, ht9, ht10⟩ := ht
  obtain ⟨ho1, ho2, ho3, ho4, ho5, ho6, ho7, ho8, ho9, ho10⟩ := ho
  cases tpc
  case start =>
    rcases glock with _ | w <;>
      (simp only [stepThread] at hstep; cases hstep) <;>
      simp_all [thrInv, leaderPC]
  case lookup =>
    rcases hg : gmap with _ | _
    · simp only [stepThread, hg] at hstep
      cases hstep
      simp_all [thrInv, leaderPC]
    · simp only [stepThread, hg] at hstep
      cases hstep
      simp_all [thrInv, leaderPC]
  case followerWait =>
    rcases grec with _ | r
    · simp only [stepThread] at hstep
      cases hstep
      simp_all [thrInv, leaderPC]
    · by_cases hgate : r.gate = 0
      · simp only [stepThread, hgate, if_pos] at hstep
        cases hstep
        rcases hrec with h | h | h <;> simp_all [thrInv, leaderPC]
      · simp only [stepThread, hgate, if_neg, not_false_iff] at hstep
        cases hstep
        simp_all [thrInv, leaderPC]
  case followerCopy =>
    rcases grec with _ | r
    · simp only [stepThread] at hstep
      cases hstep
      simp_all [thrInv, leaderPC]
    · simp only [stepThread] at hstep
      cases hstep
      simp_all [thrInv, leaderPC, BufPair.empty]
  case leaderLoad =>
    simp only [stepThread] at hstep
    cases hstep
    cases oled <;> simp_all [thrInv, leaderPC, BufPair.empty]
  case leaderPublish =>
    simp only [stepThread] at hstep
    cases hstep
    simp_all [thrInv, leaderPC]
  case leaderRelock =>
    rcases glock with _ | w <;>
      (simp only [stepThread] at hstep; cases hstep) <;>
      simp_all [thrInv, leaderPC]
  case leaderDelete =>
    simp only [stepThread] at hstep
    cases hstep
    simp_all [thrInv, leaderPC]
  case finished =>
    simp only [stepThread] at hstep
    cases hstep
    simp_all [thrInv, leaderPC]

/-- The invariant is preserved by every scheduled step. -/
theorem sfInv_step (D E : Bytes) (Er : Option Bytes) (s : SFState) (tid : Bool)
    (h : sfInv D E Er s) : sfInv D E Er (sfStep D E Er s tid) := by
  obtain ⟨ha, hb, hmap, hboth, hrec, hloads⟩ := h
  cases tid
  · rcases hstep : stepThread D E Er s.g s.b false with ⟨g2, b2⟩
    obtain ⟨hb2, ha2, hmap2, hboth2, hrec2, hloads2⟩ :=
      stepThread_inv D E Er s.g s.b s.a false g2 b2 hb ha
        (hmap.trans or_comm) (fun hx => hboth ⟨hx.2, hx.1⟩) hrec
        (hloads.trans (Nat.add_comm _ _)) hstep
    simp only [sfStep, hstep]
    exact ⟨ha2, hb2, hmap2.trans or_comm, fun hx => hboth2 ⟨hx.2, hx.1⟩, hrec2,
      hloads2.trans (Nat.add_comm _ _)⟩
  · rcases hstep : stepThread D E Er s.g s.a true with ⟨g2, a2⟩
    obtain ⟨ha2, hb2, hmap2, hboth2, hrec2, hloads2⟩ :=
      stepThread_inv D E Er s.g s.a s.b true g2 a2 ha hb hmap hboth hrec hloads hstep
    simp only [sfStep, hstep]
    exact ⟨ha2, hb2, hmap2, hboth2, hrec2, hloads2⟩

/-- The invariant holds after any schedule. -/
theorem sfRun_inv (D E : Bytes) (Er : Option Bytes) (sched : List Bool) (s : SFState)
    (h : sfInv D E Er s) : sfInv D E Er (sfRun D E Er sched s) := by
  induction sched generalizing s with
  | nil => exact h
  | cons tid rest ih => exact ih _ (sfInv_step D E Er s tid h)

/-- C5: for two concurrent `resolveSingleFetch` calls with the same
fingerprint, under every interleaving in which both calls complete and
one of them joined as a follower (i.e. its map lookup happened while
the leader was in flight), `DataSource.Load` ran exactly once, both
callers end with byte-identical `Data` and `Errors` buffer contents
(exactly the bytes `Load` wrote), and both return the same error. -/
theorem c5_single_flight (D E : Bytes) (Er : Option Bytes) (sched : List Bool)
    (hafin : (sfRun D E Er sched sfInit).a.pc = .finished)
    (hbfin : (sfRun D E Er sched sfInit).b.pc = .finished)
    (hfol : (sfRun D E Er sched sfInit).a.followed = true
      ∨ (sfRun D E Er sched sfInit).b.followed = true) :
    (sfRun D E Er sched sfInit).g.loads = 1
  ∧ (sfRun D E Er sched sfInit).a.buf = (sfRun D E Er sched sfInit).b.buf
  ∧ (sfRun D E Er sched sfInit).a.buf = ⟨D, E⟩
  ∧ (sfRun D E Er sched sfInit).a.ret = some Er
  ∧ (sfRun D E Er sched sfInit).b.ret = some Er := by
  have hinv := sfRun_inv D E Er sched sfInit (sfInv_init D E Er)
  obtain ⟨ha, hb, hmap, hboth, hrec, hloads⟩ := hinv
  simp only [thrInv] at ha hb
  obtain ⟨ha1, ha2, ha3, ha4, ha5, ha6, ha7, ha8, ha9, ha10⟩ := ha
  obtain ⟨hb1, hb2, hb3, hb4, hb5, hb6, hb7, hb8, hb9, hb10⟩ := hb
  rcases hfol with hf | hf
  · have hbled : (sfRun D E Er sched sfInit).b.led = true := by
      rcases ha10 hf with hL | hL
      · rw [hbfin] at hL
        simp [leaderPC] at hL
      · exact hL
    have haled := ha9 hf
    have hbfacts := hb4 hbfin hbled
    have hafacts := ha5 hafin hf
    refine ⟨by rw [hloads, haled, hbled]; simp, ?_, hafacts.1, hafacts.2, hbfacts.2⟩
    rw [hafacts.1, hbfacts.1]
  · have haled : (sfRun D E Er sched sfInit).a.led = true := by
      rcases hb10 hf with hL | hL
      · rw [hafin] at hL
        simp [leaderPC] at hL
      · exact hL
    have hbled := hb9 hf
    have hafacts := ha4 hafin haled
    have hbfacts := hb5 hbfin hf
    refine ⟨by rw [hloads, haled, hbled]; simp, ?_, hafacts.1, hafacts.2, hbfacts.2⟩
    rw [hafacts.1, hbfacts.1]

/-- Witness for C5: a concrete interleaving in which thread `true`
leads and thread `false` joins as a follower mid-flight. -/
theorem c5_single_flight_witness :
    (sfRun (str "d") (str "e") none
        [true, true, false, false, true, true, true, true, false, false] sfInit).g.loads = 1
  ∧ (sfRun (str "d") (str "e") none
        [true, true, false, false, true, true, true, true, false, false] sfInit).a.buf
      = (sfRun (str "d") (str "e") none
        [true, true, false, false, true, true, true, true, false, false] sfInit).b.buf := by
  have h := c5_single_flight (str "d") (str "e") none
    [true, true, false, false, true, true, true, true, false, false]
    (by decide) (by decide) (Or.inr (by decide))
  exact ⟨h.1, h.2.1⟩

end Resolve
